import Mathlib

/-!
Verification of the FFT trace post-processor (`_init_.py`) against its
natural-language specification.

The Python source is shallowly embedded below.  Text lines are modelled as
`List Char`; Python `str.strip` / `str.split` / substring containment are
modelled by `pyStrip`, `pySplit`, `containsSub`; Python's `int(s, 16)`
(ASCII inputs) by `pyIntHex`; `struct.pack('!I', v)` / `struct.unpack('!f', …)`
by `packBE32` / `unpackBE32` / `float32_of_bits` (IEEE-754 binary32 values are
represented exactly, with rational finite values); real-valued float
arithmetic of the accuracy analyzer is modelled over `ℝ`.
-/


/-- ASCII whitespace characters recognised by Python's `str.strip` / `str.split`
and by `int(s, 16)` (the embedding restricts attention to ASCII input, which is
all a VeeR instruction trace contains). -/
def isPyWhitespace (c : Char) : Bool :=
  c = ' ' || c = '\t' || c = '\n' || c = '\r' || c = Char.ofNat 11 || c = Char.ofNat 12

/-- Python `str.strip()`: drop whitespace from both ends. -/
def pyStrip (l : List Char) : List Char :=
  ((l.dropWhile isPyWhitespace).reverse.dropWhile isPyWhitespace).reverse

/-- Helper for `pySplit`: accumulates the current (reversed) token. -/
def pySplitAux : List Char → List Char → List (List Char)
  | [], acc => if acc = [] then [] else [acc.reverse]
  | c :: cs, acc =>
    if isPyWhitespace c then
      if acc = [] then pySplitAux cs [] else acc.reverse :: pySplitAux cs []
    else pySplitAux cs (c :: acc)

/-- Python `str.split()` with no argument: split on runs of whitespace,
producing no empty tokens. -/
def pySplit (l : List Char) : List (List Char) :=
  pySplitAux l []

/-- Value of one hexadecimal digit (`0-9`, `a-f`, `A-F`), else `none`. -/
def hexDigitVal (c : Char) : Option Nat :=
  if 48 ≤ c.toNat ∧ c.toNat ≤ 57 then some (c.toNat - 48)
  else if 97 ≤ c.toNat ∧ c.toNat ≤ 102 then some (c.toNat - 87)
  else if 65 ≤ c.toNat ∧ c.toNat ≤ 70 then some (c.toNat - 55)
  else none

/-- Continuation of the digit parser: Python allows a single underscore
between two digits (`1_a`), but not doubled, leading or trailing underscores. -/
def parseHexRest : List Char → Nat → Option Nat
  | [], acc => some acc
  | c :: cs, acc =>
    if c = '_' then
      match cs with
      | [] => none
      | d :: ds =>
        match hexDigitVal d with
        | some v => parseHexRest ds (acc * 16 + v)
        | none => none
    else
      match hexDigitVal c with
      | some v => parseHexRest cs (acc * 16 + v)
      | none => none

/-- Nonempty run of hex digits with optional single separating underscores. -/
def parseHexDigits : List Char → Option Nat
  | [] => none
  | c :: cs =>
    match hexDigitVal c with
    | some v => parseHexRest cs v
    | none => none

/-- After a `0x`/`0X` marker Python additionally allows one underscore before
the first digit (`int("0x_1", 16) = 1`). -/
def parseHexTail : List Char → Option Nat
  | [] => none
  | c :: cs => if c = '_' then parseHexDigits cs else parseHexDigits (c :: cs)

/-- Digits of `int(s, 16)` after the optional sign: an optional `0x`/`0X`
marker followed by underscore-separated hex digits. -/
def parseHexBody (l : List Char) : Option Nat :=
  match l with
  | c0 :: c1 :: cs =>
    if c0 = '0' ∧ (c1 = 'x' ∨ c1 = 'X') then parseHexTail cs
    else parseHexDigits l
  | _ => parseHexDigits l

/-- Optional single sign in front of the digits. -/
def pyIntSign (l : List Char) : Option Int :=
  match l with
  | [] => none
  | c :: cs =>
    if c = '+' then (parseHexBody cs).map (fun n => (n : Int))
    else if c = '-' then (parseHexBody cs).map (fun n => -(n : Int))
    else (parseHexBody l).map (fun n => (n : Int))

/-- Python `int(s, 16)` on ASCII strings: surrounding whitespace, an optional
sign, an optional `0x`/`0X` marker, then hex digits with optional single
underscores.  `none` models the `ValueError` raised on malformed input. -/
def pyIntHex (l : List Char) : Option Int :=
  pyIntSign (pyStrip l)

/-- An exactly represented IEEE-754 binary32 value: finite values are exact
rationals, plus signed infinities and NaN. -/
inductive Float32Val where
  | finite (q : ℚ)
  | inf (neg : Bool)
  | nan
deriving DecidableEq

/-- Interpretation of a 32-bit pattern as an IEEE-754 binary32 value
(sign bit 31, 8 exponent bits, 23 fraction bits).  For a normal number the
value is `± (2^23 + m) · 2^e / 2^150 = ± (1 + m/2^23) · 2^(e-127)`; for a
subnormal it is `± m / 2^149 = ± (m/2^23) · 2^(-126)`. -/
def float32_of_bits (b : Nat) : Float32Val :=
  let s : Nat := b / 2 ^ 31 % 2
  let e : Nat := b / 2 ^ 23 % 2 ^ 8
  let m : Nat := b % 2 ^ 23
  let sgn : ℚ := if s = 1 then -1 else 1
  if e = 255 then (if m = 0 then .inf (s == 1) else .nan)
  else if e = 0 then .finite (sgn * (m : ℚ) / 2 ^ 149)
  else .finite (sgn * ((2 ^ 23 + m : ℕ) : ℚ) * 2 ^ e / 2 ^ 150)

/-- `struct.error` raised by `struct.pack('!I', v)` when `v` is not an
unsigned 32-bit value. -/
inductive StructError where
  | packOverflow
deriving DecidableEq

/-- `struct.pack('!I', v)`: the 4 bytes of `v` in big-endian order, or the
`struct.error` (modelled as `none`) when `v ∉ [0, 2^32)`. -/
def packBE32 (v : Int) : Option (List Nat) :=
  if 0 ≤ v ∧ v < 2 ^ 32 then
    some [v.toNat / 2 ^ 24 % 256, v.toNat / 2 ^ 16 % 256, v.toNat / 2 ^ 8 % 256, v.toNat % 256]
  else none

/-- The 32-bit pattern read big-endian from 4 bytes, as done by
`struct.unpack('!f', bytes)` before interpreting the bits as binary32. -/
def unpackBE32 (bytes : List Nat) : Nat :=
  match bytes with
  | [b0, b1, b2, b3] => b0 * 2 ^ 24 + b1 * 2 ^ 16 + b2 * 2 ^ 8 + b3
  | _ => 0

/-- `hex_to_float` from the source: for each entry, `int(hex_str, 16)` then
reinterpret via pack/unpack; a `ValueError` (parse failure) skips the entry,
while a `struct.error` escapes and aborts the whole call. -/
def hex_to_float : List (List Char) → Except StructError (List Float32Val)
  | [] => .ok []
  | s :: rest =>
    match pyIntHex s with
    | none => hex_to_float rest
    | some v =>
      match packBE32 v with
      | none => .error .packOverflow
      | some bs =>
        match hex_to_float rest with
        | .ok fs => .ok (float32_of_bits (unpackBE32 bs) :: fs)
        | .error e => .error e

/-- One hex digit character, lowercase, as in Python's `"%08x" % b`. -/
def hexChar (n : Nat) : Char :=
  if n < 10 then Char.ofNat (48 + n) else Char.ofNat (87 + n)

/-- The 8-hex-digit representation of a 32-bit pattern. -/
def toHex8 (b : Nat) : List Char :=
  [hexChar (b / 16 ^ 7 % 16), hexChar (b / 16 ^ 6 % 16), hexChar (b / 16 ^ 5 % 16),
   hexChar (b / 16 ^ 4 % 16), hexChar (b / 16 ^ 3 % 16), hexChar (b / 16 ^ 2 % 16),
   hexChar (b / 16 % 16), hexChar (b % 16)]

/-- Value denoted by a string of plain hex digits (used to state overflow). -/
def hexDigitsVal (l : List Char) : Nat :=
  l.foldl (fun a c => a * 16 + (hexDigitVal c).getD 0) 0

/-- Python slice `l[:k]`: for `k ≥ 0` the first `k` elements; for `k < 0`
all but the last `-k` elements (clamped to the empty list). -/
def pySliceTo {α : Type} (l : List α) (k : Int) : List α :=
  if 0 ≤ k then l.take k.toNat else l.take ((l.length : Int) + k).toNat

/-- The pairing loop of `parse_complex_array` (generic in the element type):
consecutive elements at indices `2i, 2i+1` are paired; a trailing unpaired
element is paired with the zero `z` (Python `complex(float_array[i], 0)`). -/
def parse_pairs {α : Type} (z : α) : List α → List (α × α)
  | [] => []
  | [x] => [(x, z)]
  | x :: y :: r => (x, y) :: parse_pairs z r

/-- The pairing loop at real numbers, producing complex samples;
this is the value of `complex_array` before the final `[:size]` slice. -/
noncomputable def parse_complex_pairs (l : List ℝ) : List ℂ :=
  (parse_pairs (0 : ℝ) l).map fun p => ⟨p.1, p.2⟩

/-- `parse_complex_array` from the source, with floats modelled as reals:
pair consecutive floats into complex samples, then slice to `[:size]`. -/
noncomputable def parse_complex_array (float_array : List ℝ) (size : Int) : List ℂ :=
  pySliceTo (parse_complex_pairs float_array) size

/-- Does `l` start with `pat`? (helper for substring containment). -/
def startsWithList : List Char → List Char → Bool
  | [], _ => true
  | _ :: _, [] => false
  | p :: ps, c :: cs => if p = c then startsWithList ps cs else false

/-- Python substring test `pat in l`: `pat` occurs contiguously in `l`. -/
def containsSub (pat : List Char) : List Char → Bool
  | [] => startsWithList pat []
  | c :: cs => startsWithList pat (c :: cs) || containsSub pat cs

/-- First sentinel constant (data column of the line before a transition). -/
def sentinelA : List Char := "00000123".toList

/-- Second sentinel constant (data column of the line of a transition). -/
def sentinelB : List Char := "00000456".toList

/-- The instruction signature identifying the size-marker line. -/
def sizeMarkerSig : List Char := "c.mv     a1".toList

/-- State of the scanning loop of `find_and_save_complex_lines`: the emitted
segments, the currently open segment, the recorded size line, the
`is_saving` toggle and the previous raw line. -/
structure SegState where
  all_results : List (List (List Char))
  result : List (List Char)
  size_line : List Char
  is_saving : Bool
  prev_line : Option (List Char)
deriving DecidableEq

/-- The sentinel-transition test: both the previous and the current line have
more than 6 whitespace-separated fields, the previous line's field 6 is
`"00000123"` and the current line's field 6 is `"00000456"`.  On the first
line of the file (`prev? = none`, Python `if prev_line:`) no check happens. -/
def sentinelTransition (prev? : Option (List Char)) (columns : List (List Char)) : Bool :=
  match prev? with
  | none => false
  | some prev =>
    let prev_columns := pySplit (pyStrip prev)
    decide (6 < prev_columns.length) && decide (6 < columns.length) &&
      decide (prev_columns.getD 6 [] = sentinelA) && decide (columns.getD 6 [] = sentinelB)

/-- The transition part of one loop iteration (the `if prev_line:` block). -/
def segStepA (s : SegState) (columns : List (List Char)) : SegState :=
  if sentinelTransition s.prev_line columns then
    if s.is_saving then
      { s with all_results := s.all_results ++ [s.result], result := [], is_saving := false }
    else { s with is_saving := true }
  else s

/-- The capture part of one loop iteration (the `if is_saving:` block):
record the size line if the stripped line contains the marker signature,
and append the stripped line to the open segment. -/
def segStepB (s : SegState) (line_strip : List Char) : SegState :=
  if s.is_saving then
    { s with
      size_line := if containsSub sizeMarkerSig line_strip then line_strip else s.size_line,
      result := s.result ++ [line_strip] }
  else s

/-- One full loop iteration over a raw line. -/
def segStep (s : SegState) (line : List Char) : SegState :=
  { segStepB (segStepA s (pySplit (pyStrip line))) (pyStrip line) with prev_line := some line }

/-- Initial loop state. -/
def initSeg : SegState := ⟨[], [], [], false, none⟩

/-- `find_and_save_complex_lines` from the source: fold the loop over the
file's lines, then emit the trailing open segment if non-empty (`if result:`).
Returns the segments together with the recorded size line. -/
def find_and_save_complex_lines (lines : List (List Char)) :
    List (List (List Char)) × List Char :=
  let s := lines.foldl segStep initSeg
  (s.all_results ++ (if s.result = [] then [] else [s.result]), s.size_line)

/-- Number of sentinel transitions in a trace, threading the previous line
exactly as the scanning loop does. -/
def countTransitions : Option (List Char) → List (List Char) → Nat
  | _, [] => 0
  | prev?, line :: rest =>
    (if sentinelTransition prev? (pySplit (pyStrip line)) then 1 else 0) +
      countTransitions (some line) rest

/-- A segment that was opened by a sentinel transition: it is non-empty and
its first element is a (stripped) line whose field 6 is `"00000456"` — the
second line of the opening transition. -/
def headOpens (seg : List (List Char)) : Prop :=
  ∃ h t, seg = h :: t ∧ 6 < (pySplit h).length ∧ (pySplit h).getD 6 [] = sentinelB

/-- Loop invariant of the scanner: every emitted segment was opened by a
transition, the open segment (while capturing) likewise, and the open
segment is empty while idle. -/
def segInvariant (s : SegState) : Prop :=
  (∀ seg ∈ s.all_results, headOpens seg) ∧
  (s.is_saving = true → headOpens s.result) ∧
  (s.is_saving = false → s.result = [])

/-- Per-index magnitude error of `analyze_fft_accuracy`:
`abs(abs(asm_val) - abs(ref_val))`. -/
noncomputable def magErrC (asm_val ref_val : ℂ) : ℝ :=
  |Complex.abs asm_val - Complex.abs ref_val|

/-- `math.atan2(y, x)`: the argument of the point `(x, y)`, in `(-π, π]`. -/
noncomputable def atan2 (y x : ℝ) : ℝ := Complex.arg ⟨x, y⟩

/-- Per-index phase error in radians: absolute difference of the two-argument
arctangents, reflected into `[0, π]` when it exceeds `π`. -/
noncomputable def phaseErrRad (asm_val ref_val : ℂ) : ℝ :=
  let e := |atan2 asm_val.im asm_val.re - atan2 ref_val.im ref_val.re|
  if e > Real.pi then 2 * Real.pi - e else e

/-- Per-index phase error in degrees (`phase_error * 180 / math.pi`). -/
noncomputable def phaseErrDeg (asm_val ref_val : ℂ) : ℝ :=
  phaseErrRad asm_val ref_val * 180 / Real.pi

/-- The `magnitude_errors` list of `analyze_fft_accuracy` (built over
`zip(assembly_fft, reference_fft)`). -/
noncomputable def magErrList (assembly_fft reference_fft : List ℂ) : List ℝ :=
  (assembly_fft.zip reference_fft).map fun p => magErrC p.1 p.2

/-- The `phase_errors` list of `analyze_fft_accuracy` (degrees). -/
noncomputable def phaseErrList (assembly_fft reference_fft : List ℂ) : List ℝ :=
  (assembly_fft.zip reference_fft).map fun p => phaseErrDeg p.1 p.2

/-- Python `max(l)`: `none` models the `ValueError` raised on an empty list. -/
noncomputable def pyMax (l : List ℝ) : Option ℝ :=
  match l with
  | [] => none
  | x :: xs => some (xs.foldl max x)

/-- The statistics and verdict produced by `analyze_fft_accuracy`.
`pass_verdict` is the condition of the `✓ CORRECT` branch. -/
structure FFTReport where
  max_mag_error : ℝ
  avg_mag_error : ℝ
  max_phase_error : ℝ
  avg_phase_error : ℝ
  pass_verdict : Prop

/-- The statistics phase of `analyze_fft_accuracy` over the two error lists:
`max` raises on an empty list (modelled by `none`); the thresholds are
`mag_threshold = 1e-3` (the real number 1/1000) and `phase_threshold = 5.0`. -/
noncomputable def analyzeOf (mes pes : List ℝ) : Option FFTReport :=
  match pyMax mes, pyMax pes with
  | some mm, some mp =>
    some ⟨mm, mes.sum / (mes.length : ℝ), mp, pes.sum / (pes.length : ℝ),
      mm < 1 / 1000 ∧ mp < 5⟩
  | _, _ => none

/-- `analyze_fft_accuracy` from the source: per-index errors over the zip of
the two arrays, then aggregate statistics and the pass/fail verdict. -/
noncomputable def analyze_fft_accuracy (assembly_fft reference_fft : List ℂ) :
    Option FFTReport :=
  analyzeOf (magErrList assembly_fft reference_fft)
    (phaseErrList assembly_fft reference_fft)

/-- The float-load signature used by `filter_lines_by_flw`. -/
def flwSig : List Char := "flw".toList

/-- `filter_lines_by_flw` from the source: keep lines containing `"flw"`. -/
def filter_lines_by_flw (lines : List (List Char)) : List (List Char) :=
  lines.filter (fun line => containsSub flwSig line)

/-- `extract_7th_column` from the source: strip and split each line and keep
field index 6 of those lines having more than 6 fields. -/
def extract_7th_column (lines : List (List Char)) : List (List Char) :=
  (lines.filter (fun line => 6 < (pySplit (pyStrip line)).length)).map
    (fun line => (pySplit (pyStrip line)).getD 6 [])

/-- The size recovery of `main`: `int(extract_7th_column([size_line])[0], 16)`.
`none` models the `IndexError` (no 7th field) or `ValueError` (bad hex) that
the generic `except Exception` handler of `main` absorbs. -/
def extractSize (size_line : List Char) : Option Int :=
  match extract_7th_column [size_line] with
  | [] => none
  | c :: _ => pyIntHex c

/-- One iteration of the array-building loop of `main`:
`parse_complex_array(hex_to_float(extract_7th_column(filter_lines_by_flw(a))), size)`
over decoded binary32 values; a `struct.error` escapes. -/
def buildArray (segment : List (List Char)) (size : Int) :
    Except StructError (List (Float32Val × Float32Val)) :=
  match hex_to_float (extract_7th_column (filter_lines_by_flw segment)) with
  | .error e => .error e
  | .ok floats => .ok (pySliceTo (parse_pairs (Float32Val.finite 0) floats) size)

/-- The user-visible messages `main` can print, at one tag per report. -/
inductive Msg where
  | fileNotFound
  | noData
  | sizeDetected (n : Int)
  | arraysReport
  | analysisReport
  | plotFailed
  | insufficientArrays
  | processingError
deriving DecidableEq

/-- Outcome of a run of `main`: the report tags printed, in order, and the
process exit status (`sys.exit(1)` raises `SystemExit`, which the `except`
clauses of `main` do not catch; every other path returns normally, exit 0). -/
structure MainOut where
  msgs : List Msg
  exit_code : Nat
deriving DecidableEq

/-- `main` from the source, after argument parsing and file-name selection
(out of the specified core): `content?` is the file's lines (`none` models
`FileNotFoundError` from `open`), `refFFT` the trusted NumPy collaborator
(modelled as a total function), `plot_ok` whether the plotting collaborator
succeeds.  Mirrors the `try`/`except` structure of the source. -/
def main_body (content? : Option (List (List Char)))
    (refFFT : List (Float32Val × Float32Val) → List (Float32Val × Float32Val))
    (plot_ok : Bool) : MainOut :=
  match content? with
  | none => ⟨[Msg.fileNotFound], 0⟩
  | some lines =>
    let fr := find_and_save_complex_lines lines
    if fr.1 = [] ∨ fr.2 = [] then ⟨[Msg.noData], 1⟩
    else
      match extractSize fr.2 with
      | none => ⟨[Msg.processingError], 0⟩
      | some n =>
        match fr.1.mapM (fun a => buildArray a n) with
        | .error _ => ⟨[Msg.sizeDetected n, Msg.processingError], 0⟩
        | .ok complex_arrays =>
          if 2 ≤ complex_arrays.length then
            let input_signal := complex_arrays.getD 0 []
            let output_signal := complex_arrays.getD 1 []
            let reference_fft := refFFT input_signal
            if output_signal = [] ∨ reference_fft = [] then
              ⟨[Msg.sizeDetected n, Msg.arraysReport, Msg.processingError], 0⟩
            else
              ⟨[Msg.sizeDetected n, Msg.arraysReport, Msg.analysisReport] ++
                (if plot_ok then [] else [Msg.plotFailed]), 0⟩
          else ⟨[Msg.sizeDetected n, Msg.insufficientArrays], 0⟩

theorem dropWhile_eq_self_of_no_match {α : Type} (p : α → Bool) (l : List α)
    (h : ∀ c ∈ l, p c = false) : l.dropWhile p = l := by
  cases l with
  | nil => rfl
  | cons c cs => simp [List.dropWhile_cons, h c (by simp)]

theorem pyStrip_of_no_ws (l : List Char) (h : ∀ c ∈ l, isPyWhitespace c = false) :
    pyStrip l = l := by
  unfold pyStrip
  rw [dropWhile_eq_self_of_no_match _ _ h,
      dropWhile_eq_self_of_no_match _ _ (fun c hc => h c (List.mem_reverse.mp hc)),
      List.reverse_reverse]

theorem hexDigitVal_isSome_facts (c : Char) (h : (hexDigitVal c).isSome = true) :
    isPyWhitespace c = false ∧ c ≠ '+' ∧ c ≠ '-' ∧ c ≠ 'x' ∧ c ≠ 'X' ∧ c ≠ '_' := by
  refine ⟨?_, ?_, ?_, ?_, ?_, ?_⟩
  · by_contra hw
    simp only [Bool.not_eq_false, isPyWhitespace, Bool.or_eq_true, decide_eq_true_eq] at hw
    rcases hw with ((((h1 | h1) | h1) | h1) | h1) | h1 <;> subst h1 <;> simp [hexDigitVal] at h
  all_goals
    intro he
    subst he
    simp [hexDigitVal] at h

theorem parseHexRest_digits (cs : List Char) (acc : Nat)
    (h : ∀ c ∈ cs, (hexDigitVal c).isSome = true) :
    parseHexRest cs acc = some (cs.foldl (fun a c => a * 16 + (hexDigitVal c).getD 0) acc) := by
  induction cs generalizing acc with
  | nil => rfl
  | cons c cs ih =>
    have hc : (hexDigitVal c).isSome = true := h c (by simp)
    obtain ⟨v, hv⟩ := Option.isSome_iff_exists.mp hc
    have hne : c ≠ '_' := (hexDigitVal_isSome_facts c hc).2.2.2.2.2
    rw [parseHexRest.eq_def]
    simp only [if_neg hne, hv]
    rw [ih _ (fun d hd => h d (by simp [hd]))]
    simp [hv]

theorem parseHexDigits_digits (l : List Char) (hne : l ≠ [])
    (h : ∀ c ∈ l, (hexDigitVal c).isSome = true) :
    parseHexDigits l = some (hexDigitsVal l) := by
  cases l with
  | nil => exact absurd rfl hne
  | cons c cs =>
    have hc : (hexDigitVal c).isSome = true := h c (by simp)
    obtain ⟨v, hv⟩ := Option.isSome_iff_exists.mp hc
    simp only [parseHexDigits, hv]
    rw [parseHexRest_digits cs v (fun d hd => h d (by simp [hd]))]
    simp [hexDigitsVal, hv]

theorem pyIntHex_digits (l : List Char) (hne : l ≠ [])
    (h : ∀ c ∈ l, (hexDigitVal c).isSome = true) :
    pyIntHex l = some ((hexDigitsVal l : Nat) : Int) := by
  unfold pyIntHex
  rw [pyStrip_of_no_ws l (fun c hc => (hexDigitVal_isSome_facts c (h c hc)).1)]
  cases l with
  | nil => exact absurd rfl hne
  | cons c cs =>
    have hfacts := hexDigitVal_isSome_facts c (h c (by simp))
    have hbody : parseHexBody (c :: cs) = parseHexDigits (c :: cs) := by
      cases cs with
      | nil => rfl
      | cons c1 cs1 =>
        have hf1 := hexDigitVal_isSome_facts c1 (h c1 (by simp))
        simp only [parseHexBody]
        rw [if_neg]
        rintro ⟨-, h1 | h1⟩
        · exact hf1.2.2.2.1 h1
        · exact hf1.2.2.2.2.1 h1
    simp only [pyIntSign, if_neg hfacts.2.1, if_neg hfacts.2.2.1, hbody,
      parseHexDigits_digits _ hne h]
    rfl

theorem hexChar_lt16_facts : ∀ x < 16, (hexDigitVal (hexChar x)).isSome = true ∧
    (hexDigitVal (hexChar x)).getD 0 = x := by decide

theorem toHex8_all_digits (b : Nat) : ∀ c ∈ toHex8 b, (hexDigitVal c).isSome = true := by
  intro c hc
  simp only [toHex8, List.mem_cons, List.not_mem_nil, or_false] at hc
  rcases hc with h | h | h | h | h | h | h | h <;> subst h <;>
    exact (hexChar_lt16_facts _ (Nat.mod_lt _ (by norm_num))).1

theorem hexDigitsVal_toHex8 (b : Nat) (hb : b < 2 ^ 32) : hexDigitsVal (toHex8 b) = b := by
  have hd : ∀ x, (hexDigitVal (hexChar (x % 16))).getD 0 = x % 16 := fun x =>
    (hexChar_lt16_facts _ (Nat.mod_lt _ (by norm_num))).2
  simp only [hexDigitsVal, toHex8, List.foldl_cons, List.foldl_nil, hd]
  omega

theorem pyIntHex_toHex8 (b : Nat) (hb : b < 2 ^ 32) : pyIntHex (toHex8 b) = some (b : Int) := by
  rw [pyIntHex_digits (toHex8 b) (by simp [toHex8]) (toHex8_all_digits b),
    hexDigitsVal_toHex8 b hb]

theorem packBE32_natCast (b : Nat) (hb : b < 2 ^ 32) :
    packBE32 (b : Int) = some [b / 2 ^ 24 % 256, b / 2 ^ 16 % 256, b / 2 ^ 8 % 256, b % 256] := by
  unfold packBE32
  rw [if_pos ⟨Int.ofNat_nonneg b, by exact_mod_cast hb⟩]
  simp

theorem unpackBE32_bytes (b : Nat) (hb : b < 2 ^ 32) :
    unpackBE32 [b / 2 ^ 24 % 256, b / 2 ^ 16 % 256, b / 2 ^ 8 % 256, b % 256] = b := by
  simp only [unpackBE32]
  omega

theorem hex_to_float_single (s : List Char) (v : Int) (h1 : pyIntHex s = some v)
    (bs : List Nat) (h2 : packBE32 v = some bs) :
    hex_to_float [s] = .ok [float32_of_bits (unpackBE32 bs)] := by
  rw [hex_to_float.eq_def]
  simp only [h1, h2]
  rw [show hex_to_float [] = Except.ok [] from rfl]

theorem hex_to_float_roundtrip (b : Nat) (hb : b < 2 ^ 32) :
    hex_to_float [toHex8 b] = .ok [float32_of_bits b] := by
  rw [hex_to_float_single (toHex8 b) (b : Int) (pyIntHex_toHex8 b hb) _ (packBE32_natCast b hb),
    unpackBE32_bytes b hb]

theorem hex_to_float_skip (s : List Char) (rest : List (List Char))
    (h : pyIntHex s = none) : hex_to_float (s :: rest) = hex_to_float rest := by
  simp only [hex_to_float, h]

theorem hex_to_float_overflow (s : List Char) (rest : List (List Char)) (v : Int)
    (h : pyIntHex s = some v) (hv : ¬(0 ≤ v ∧ v < 2 ^ 32)) :
    hex_to_float (s :: rest) = .error StructError.packOverflow := by
  simp only [hex_to_float, h, packBE32, if_neg hv]

theorem parse_pairs_length {α : Type} (z : α) :
    ∀ l : List α, (parse_pairs z l).length = (l.length + 1) / 2
  | [] => by simp [parse_pairs]
  | [_] => by simp [parse_pairs]
  | x :: y :: r => by
    simp only [parse_pairs, List.length_cons, parse_pairs_length z r]
    omega

theorem getLast?_cons_of_ne {α : Type} (a : α) (l : List α) (h : l ≠ []) :
    (a :: l).getLast? = l.getLast? := by
  cases l with
  | nil => exact absurd rfl h
  | cons b bs => exact List.getLast?_cons_cons

theorem parse_pairs_getLast {α : Type} (z : α) :
    ∀ l : List α, l.length % 2 = 1 →
      (parse_pairs z l).getLast? = l.getLast?.map (fun x => (x, z))
  | [] => by simp
  | [x] => by simp [parse_pairs]
  | x :: y :: r => fun h => by
    have hr : r.length % 2 = 1 := by
      simp only [List.length_cons] at h
      omega
    have hrne : r ≠ [] := by
      intro he
      rw [he] at hr
      simp at hr
    have hpne : parse_pairs z r ≠ [] := by
      intro he
      have hlen := parse_pairs_length z r
      rw [he] at hlen
      have : 0 < r.length := List.length_pos.mpr hrne
      simp only [List.length_nil] at hlen
      omega
    rw [show parse_pairs z (x :: y :: r) = (x, y) :: parse_pairs z r from rfl,
      getLast?_cons_of_ne _ _ hpne,
      getLast?_cons_of_ne _ _ (List.cons_ne_nil y r),
      getLast?_cons_of_ne _ _ hrne]
    exact parse_pairs_getLast z r hr

theorem segStep_prev (s : SegState) (line : List Char) :
    (segStep s line).prev_line = some line := rfl

theorem segStep_count (s : SegState) (line : List Char) :
    2 * (segStep s line).all_results.length +
      (if (segStep s line).is_saving then 1 else 0) =
    2 * s.all_results.length + (if s.is_saving then 1 else 0) +
      (if sentinelTransition s.prev_line (pySplit (pyStrip line)) then 1 else 0) := by
  unfold segStep segStepA segStepB
  by_cases ht : sentinelTransition s.prev_line (pySplit (pyStrip line)) = true
  · by_cases hs : s.is_saving = true
    · simp [ht, hs]
      omega
    · simp only [Bool.not_eq_true] at hs
      simp [ht, hs]
  · simp only [Bool.not_eq_true] at ht
    by_cases hs : s.is_saving = true
    · simp [ht, hs]
    · simp only [Bool.not_eq_true] at hs
      simp [ht, hs]

theorem foldl_segStep_count (lines : List (List Char)) :
    ∀ s : SegState,
      2 * (lines.foldl segStep s).all_results.length +
        (if (lines.foldl segStep s).is_saving then 1 else 0) =
      2 * s.all_results.length + (if s.is_saving then 1 else 0) +
        countTransitions s.prev_line lines := by
  induction lines with
  | nil => intro s; simp [countTransitions]
  | cons line rest ih =>
    intro s
    simp only [List.foldl_cons, countTransitions]
    rw [ih (segStep s line), segStep_count s line, segStep_prev s line]
    omega

theorem sentinelTransition_curr (prev? : Option (List Char)) (columns : List (List Char))
    (h : sentinelTransition prev? columns = true) :
    6 < columns.length ∧ columns.getD 6 [] = sentinelB := by
  cases prev? with
  | none => simp [sentinelTransition] at h
  | some prev =>
    simp only [sentinelTransition, Bool.and_eq_true, decide_eq_true_eq] at h
    exact ⟨h.1.1.2, h.2⟩

theorem segStep_open (s : SegState) (line : List Char)
    (hs : s.is_saving = false) (hr : s.result = [])
    (ht : sentinelTransition s.prev_line (pySplit (pyStrip line)) = true) :
    (segStep s line).result = [pyStrip line] ∧ (segStep s line).is_saving = true := by
  unfold segStep segStepA segStepB
  simp [ht, hs, hr]

theorem segStep_close (s : SegState) (line : List Char)
    (hs : s.is_saving = true)
    (ht : sentinelTransition s.prev_line (pySplit (pyStrip line)) = true) :
    (segStep s line).all_results = s.all_results ++ [s.result] ∧
      (segStep s line).result = [] := by
  unfold segStep segStepA segStepB
  simp [ht, hs]

theorem segStep_eq_close (s : SegState) (line : List Char) (hs : s.is_saving = true)
    (ht : sentinelTransition s.prev_line (pySplit (pyStrip line)) = true) :
    segStep s line = ⟨s.all_results ++ [s.result], [], s.size_line, false, some line⟩ := by
  simp [segStep, segStepA, segStepB, ht, hs]

theorem segStep_eq_open (s : SegState) (line : List Char) (hs : s.is_saving = false)
    (ht : sentinelTransition s.prev_line (pySplit (pyStrip line)) = true) :
    segStep s line = ⟨s.all_results, s.result ++ [pyStrip line],
      if containsSub sizeMarkerSig (pyStrip line) then pyStrip line else s.size_line,
      true, some line⟩ := by
  simp [segStep, segStepA, segStepB, ht, hs]

theorem segStep_eq_capture (s : SegState) (line : List Char) (hs : s.is_saving = true)
    (ht : sentinelTransition s.prev_line (pySplit (pyStrip line)) = false) :
    segStep s line = ⟨s.all_results, s.result ++ [pyStrip line],
      if containsSub sizeMarkerSig (pyStrip line) then pyStrip line else s.size_line,
      true, some line⟩ := by
  simp [segStep, segStepA, segStepB, ht, hs]

theorem segStep_eq_idle (s : SegState) (line : List Char) (hs : s.is_saving = false)
    (ht : sentinelTransition s.prev_line (pySplit (pyStrip line)) = false) :
    segStep s line = ⟨s.all_results, s.result, s.size_line, false, some line⟩ := by
  simp [segStep, segStepA, segStepB, ht, hs]

theorem segInvariant_step (s : SegState) (line : List Char)
    (hinv : segInvariant s) : segInvariant (segStep s line) := by
  obtain ⟨hall, hsave, hidle⟩ := hinv
  by_cases ht : sentinelTransition s.prev_line (pySplit (pyStrip line)) = true
  · by_cases hs : s.is_saving = true
    · -- closing transition: emit the open segment
      rw [segStep_eq_close s line hs ht]
      refine ⟨?_, ?_, ?_⟩
      · intro seg hseg
        rcases List.mem_append.mp hseg with h | h
        · exact hall seg h
        · rw [List.mem_singleton.mp h]
          exact hsave hs
      · intro h
        simp at h
      · intro _
        rfl
    · -- opening transition: the current line becomes the segment head
      simp only [Bool.not_eq_true] at hs
      have hr : s.result = [] := hidle hs
      obtain ⟨hlen, hcol⟩ := sentinelTransition_curr _ _ ht
      rw [segStep_eq_open s line hs ht]
      refine ⟨?_, ?_, ?_⟩
      · intro seg hseg
        exact hall seg hseg
      · intro _
        rw [show (⟨s.all_results, s.result ++ [pyStrip line], _, true, some line⟩ :
          SegState).result = s.result ++ [pyStrip line] from rfl, hr, List.nil_append]
        exact ⟨pyStrip line, [], rfl, hlen, hcol⟩
      · intro h
        simp at h
  · simp only [Bool.not_eq_true] at ht
    by_cases hs : s.is_saving = true
    · -- capturing a regular line: append to the open segment
      obtain ⟨h, t, hseg, hlen, hcol⟩ := hsave hs
      rw [segStep_eq_capture s line hs ht]
      refine ⟨?_, ?_, ?_⟩
      · intro seg hmem
        exact hall seg hmem
      · intro _
        exact ⟨h, t ++ [pyStrip line], by rw [show (⟨s.all_results,
          s.result ++ [pyStrip line], _, true, some line⟩ : SegState).result =
          s.result ++ [pyStrip line] from rfl, hseg]; rfl, hlen, hcol⟩
      · intro hfalse
        simp at hfalse
    · simp only [Bool.not_eq_true] at hs
      rw [segStep_eq_idle s line hs ht]
      refine ⟨?_, ?_, ?_⟩
      · intro seg hmem
        exact hall seg hmem
      · intro hfalse
        simp at hfalse
      · intro _
        exact hidle hs

theorem segInvariant_foldl (lines : List (List Char)) :
    ∀ s : SegState, segInvariant s → segInvariant (lines.foldl segStep s) := by
  induction lines with
  | nil => intro s h; exact h
  | cons line rest ih =>
    intro s h
    exact ih (segStep s line) (segInvariant_step s line h)

theorem find_segments_headOpens (lines : List (List Char)) :
    ∀ seg ∈ (find_and_save_complex_lines lines).1, headOpens seg := by
  have hinv : segInvariant (lines.foldl segStep initSeg) :=
    segInvariant_foldl lines initSeg
      ⟨by intro seg hseg; simp [initSeg] at hseg,
       by intro h; simp [initSeg] at h,
       by intro _; rfl⟩
  obtain ⟨hall, hsave, hidle⟩ := hinv
  intro seg hseg
  simp only [find_and_save_complex_lines, List.mem_append] at hseg
  rcases hseg with hseg | hseg
  · exact hall seg hseg
  · by_cases hr : (lines.foldl segStep initSeg).result = []
    · simp [hr] at hseg
    · simp only [if_neg hr, List.mem_singleton] at hseg
      subst hseg
      cases hsv : (lines.foldl segStep initSeg).is_saving with
      | true => exact hsave hsv
      | false => exact absurd (hidle hsv) hr

theorem magErrC_comm (z w : ℂ) : magErrC z w = magErrC w z := by
  unfold magErrC
  exact abs_sub_comm _ _

theorem magErrC_nonneg (z w : ℂ) : 0 ≤ magErrC z w := abs_nonneg _

theorem phaseErrRad_comm (z w : ℂ) : phaseErrRad z w = phaseErrRad w z := by
  unfold phaseErrRad
  rw [abs_sub_comm]

theorem phaseErrDeg_comm (z w : ℂ) : phaseErrDeg z w = phaseErrDeg w z := by
  unfold phaseErrDeg
  rw [phaseErrRad_comm]

theorem atan2_eq_arg (z : ℂ) : atan2 z.im z.re = Complex.arg z := rfl

theorem phaseErrRad_bounds (z w : ℂ) : 0 ≤ phaseErrRad z w ∧ phaseErrRad z w ≤ Real.pi := by
  unfold phaseErrRad
  rw [atan2_eq_arg z, atan2_eq_arg w]
  set e := |Complex.arg z - Complex.arg w| with he
  have he0 : 0 ≤ e := abs_nonneg _
  have hlt : e < 2 * Real.pi := by
    have hza := Complex.arg_le_pi z
    have hzb := Complex.neg_pi_lt_arg z
    have hwa := Complex.arg_le_pi w
    have hwb := Complex.neg_pi_lt_arg w
    rw [he, abs_lt]
    constructor <;> linarith
  by_cases hgt : e > Real.pi
  · rw [if_pos hgt]
    constructor <;> linarith
  · rw [if_neg hgt]
    push_neg at hgt
    exact ⟨he0, hgt⟩

theorem phaseErrDeg_bounds (z w : ℂ) :
    0 ≤ phaseErrDeg z w ∧ phaseErrDeg z w ≤ 180 := by
  obtain ⟨h0, hpi⟩ := phaseErrRad_bounds z w
  have hpos := Real.pi_pos
  unfold phaseErrDeg
  constructor
  · apply div_nonneg (mul_nonneg h0 (by norm_num)) hpos.le
  · rw [div_le_iff₀ hpos]
    nlinarith

theorem zip_map_comm {α : Type} (f : ℂ → ℂ → α) (hf : ∀ z w, f z w = f w z) :
    ∀ a b : List ℂ, (a.zip b).map (fun p => f p.1 p.2) = (b.zip a).map (fun p => f p.1 p.2)
  | [], b => by cases b <;> rfl
  | a :: as, [] => rfl
  | a :: as, b :: bs => by
    simp only [List.zip_cons_cons, List.map_cons]
    rw [hf a b, zip_map_comm f hf as bs]

theorem magErrList_comm (a b : List ℂ) : magErrList a b = magErrList b a :=
  zip_map_comm _ magErrC_comm a b

theorem phaseErrList_comm (a b : List ℂ) : phaseErrList a b = phaseErrList b a :=
  zip_map_comm _ phaseErrDeg_comm a b

theorem zip_eq_zip_take {α β : Type} :
    ∀ (a : List α) (b : List β), a.zip b = (a.take b.length).zip (b.take a.length)
  | [], b => by simp
  | a :: as, [] => by simp
  | a :: as, b :: bs => by
    simp only [List.zip_cons_cons, List.length_cons, List.take_succ_cons]
    rw [zip_eq_zip_take as bs]

theorem parse_complex_pairs_length (l : List ℝ) :
    (parse_complex_pairs l).length = (l.length + 1) / 2 := by
  unfold parse_complex_pairs
  rw [List.length_map, parse_pairs_length]

theorem parse_complex_array_length (l : List ℝ) (N : Nat) :
    (parse_complex_array l (N : Int)).length = min ((l.length + 1) / 2) N := by
  unfold parse_complex_array pySliceTo
  rw [if_pos (Int.ofNat_nonneg N), List.length_take, parse_complex_pairs_length]
  omega

/-- C4 counterexample: the entry `"0x0"` contains the non-hexadecimal
character `x`, yet it is not dropped — `int("0x0", 16)` accepts the `0x`
marker, so the entry decodes to a float (`0.0`) instead of being skipped. -/
theorem spec_C4_cex :
    ('x' ∈ "0x0".toList ∧ hexDigitVal 'x' = none) ∧
      hex_to_float ["0x0".toList] = Except.ok [float32_of_bits 0] ∧
      Except.ok [float32_of_bits 0] ≠
        (Except.ok [] : Except StructError (List Float32Val)) := by
  refine ⟨by decide, rfl, ?_⟩
  intro h
  simp at h

/-- C4 (amended): for every 32-bit pattern `b`, decoding the 8-hex-digit
representation of `b` yields the float obtained by reinterpreting `b`'s bits
as a big-endian IEEE-754 binary32 value; and every input string rejected by
the base-16 integer parse (`ValueError`) is silently dropped from the output
sequence, processing continuing with the remaining entries. -/
theorem spec_C4 :
    (∀ b : Nat, b < 2 ^ 32 → hex_to_float [toHex8 b] = .ok [float32_of_bits b]) ∧
    (∀ (s : List Char) (rest : List (List Char)), pyIntHex s = none →
      hex_to_float (s :: rest) = hex_to_float rest) :=
  ⟨hex_to_float_roundtrip, hex_to_float_skip⟩

theorem spec_C4_witness :
    hex_to_float [toHex8 1065353216] = .ok [float32_of_bits 1065353216] ∧
      hex_to_float ["zz".toList, toHex8 0] = hex_to_float [toHex8 0] :=
  ⟨spec_C4.1 1065353216 (by norm_num),
   spec_C4.2 "zz".toList [toHex8 0] (by decide)⟩

/-- C8: a string of hex digits denoting a value `≥ 2^32` passes
`int(_, 16)` but overflows `struct.pack('!I', _)`: `hex_to_float` aborts
with the uncaught `struct.error` instead of skipping the entry; only the
`ValueError` of a failed parse is absorbed by the skip branch. -/
theorem spec_C8 :
    (∀ s : List Char, s ≠ [] → (∀ c ∈ s, (hexDigitVal c).isSome = true) →
      2 ^ 32 ≤ hexDigitsVal s →
      ∀ rest, hex_to_float (s :: rest) = .error StructError.packOverflow) ∧
    (∀ (s : List Char) (rest : List (List Char)), pyIntHex s = none →
      hex_to_float (s :: rest) = hex_to_float rest) := by
  constructor
  · intro s hne hdig hval rest
    apply hex_to_float_overflow s rest _ (pyIntHex_digits s hne hdig)
    rintro ⟨-, hlt⟩
    have h32 : ((2 : Nat) ^ 32 : Int) ≤ (hexDigitsVal s : Int) := by exact_mod_cast hval
    have : ((2 : Nat) ^ 32 : Int) = 2 ^ 32 := by norm_num
    omega
  · exact hex_to_float_skip

theorem spec_C8_witness :
    hex_to_float ["100000000".toList] = .error StructError.packOverflow ∧
      hex_to_float ["+0x1g".toList, "100000000".toList] =
        hex_to_float ["100000000".toList] :=
  ⟨spec_C8.1 "100000000".toList (by decide) (by decide) (by decide) [],
   spec_C8.2 "+0x1g".toList ["100000000".toList] (by decide)⟩

/-- C1 counterexample: with target size `N = 1` and a single decodable float
(`M = 1 < 2N`), the builder returns `⌈M/2⌉ = 1 = N` samples — contradicting
the claim that for `M < 2N` it never returns `N` samples. -/
theorem spec_C1_cex :
    (1 : Nat) < 2 * 1 ∧ (parse_complex_array [(0 : ℝ)] ((1 : Nat) : Int)).length = 1 := by
  refine ⟨by norm_num, ?_⟩
  rw [parse_complex_array_length [(0 : ℝ)] 1]
  rfl

/-- C1 (amended): if `M ≥ 2N` the builder returns exactly `N` complex
samples; if `M < 2N` it returns `⌈M/2⌉` samples, and that count equals `N`
exactly when `M = 2N - 1` (for `M ≤ 2N - 2` it is fewer than `N`). -/
theorem spec_C1 (float_array : List ℝ) (N : Nat) :
    (2 * N ≤ float_array.length →
      (parse_complex_array float_array (N : Int)).length = N) ∧
    (float_array.length < 2 * N →
      (parse_complex_array float_array (N : Int)).length = (float_array.length + 1) / 2 ∧
      ((parse_complex_array float_array (N : Int)).length = N ↔
        float_array.length = 2 * N - 1)) := by
  have h := parse_complex_array_length float_array N
  refine ⟨fun hM => ?_, fun hM => ⟨?_, ?_⟩⟩
  · rw [h]; omega
  · rw [h]; omega
  · rw [h]
    constructor <;> intro <;> omega

theorem spec_C1_witness :
    (parse_complex_array [(0 : ℝ), 0] ((1 : Nat) : Int)).length = 1 ∧
      (parse_complex_array [(0 : ℝ), 0, 0] ((2 : Nat) : Int)).length = 2 ∧
      ((parse_complex_array [(0 : ℝ), 0, 0] ((2 : Nat) : Int)).length = 2 ↔
        (3 : Nat) = 2 * 2 - 1) :=
  ⟨(spec_C1 [0, 0] 1).1 (by simp),
   (by simpa using ((spec_C1 [0, 0, 0] 2).2 (by simp)).1),
   (by simpa using ((spec_C1 [0, 0, 0] 2).2 (by simp)).2)⟩

/-- C6: for every odd-length float sequence, the last complex sample produced
by the pairing loop (before the `[:size]` truncation) is the final float with
imaginary part exactly `0`. -/
theorem spec_C6 (float_array : List ℝ) (h : float_array.length % 2 = 1) :
    (parse_complex_pairs float_array).getLast? =
      float_array.getLast?.map (fun x => (⟨x, 0⟩ : ℂ)) := by
  unfold parse_complex_pairs
  rw [List.getLast?_map, parse_pairs_getLast (0 : ℝ) float_array h, Option.map_map]
  rfl

theorem spec_C6_witness :
    (parse_complex_pairs [(2 : ℝ)]).getLast? = some ⟨2, 0⟩ := by
  have h := spec_C6 [(2 : ℝ)] (by simp)
  simpa using h

/-- C5: the segmenter emits at most `⌈T/2⌉ + 1` segments for a trace with `T`
sentinel transitions, and a step taken while idle (`is_saving = False`) never
emits a segment — a lone transition only opens capture. -/
theorem spec_C5 :
    (∀ lines : List (List Char),
      ((find_and_save_complex_lines lines).1).length ≤
        (countTransitions none lines + 1) / 2 + 1) ∧
    (∀ (s : SegState) (line : List Char), s.is_saving = false →
      (segStep s line).all_results = s.all_results) := by
  constructor
  · intro lines
    have h := foldl_segStep_count lines initSeg
    have h' : 2 * (lines.foldl segStep initSeg).all_results.length +
        (if (lines.foldl segStep initSeg).is_saving then 1 else 0) =
        countTransitions none lines := by
      simpa [initSeg] using h
    unfold find_and_save_complex_lines
    rw [List.length_append]
    by_cases hr : (lines.foldl segStep initSeg).result = []
    · rw [if_pos hr]
      simp only [List.length_nil]
      cases hsv : (lines.foldl segStep initSeg).is_saving <;> rw [hsv] at h' <;>
        simp at h' <;> omega
    · rw [if_neg hr]
      simp only [List.length_cons, List.length_nil]
      cases hsv : (lines.foldl segStep initSeg).is_saving <;> rw [hsv] at h' <;>
        simp at h' <;> omega
  · intro s line hs
    by_cases ht : sentinelTransition s.prev_line (pySplit (pyStrip line)) = true
    · rw [segStep_eq_open s line hs ht]
    · rw [segStep_eq_idle s line hs
        (by simpa using ht)]

theorem spec_C5_witness :
    (segStep initSeg [' ']).all_results = [] := by
  have h := spec_C5.2 initSeg [' '] rfl
  exact h.trans rfl

/-- C9: every emitted segment (closed or trailing) is non-empty and begins
with the stripped second line of its opening sentinel transition (a line with
more than 6 fields whose field 6 is `"00000456"`); on an opening transition
the open segment becomes exactly the stripped current line, and the line that
triggers a closing transition is excluded — the emitted segment is the
accumulated result from before that line. -/
theorem spec_C9 :
    (∀ lines : List (List Char), ∀ seg ∈ (find_and_save_complex_lines lines).1,
      headOpens seg) ∧
    (∀ (s : SegState) (line : List Char), s.is_saving = false → s.result = [] →
      sentinelTransition s.prev_line (pySplit (pyStrip line)) = true →
      (segStep s line).result = [pyStrip line] ∧ (segStep s line).is_saving = true) ∧
    (∀ (s : SegState) (line : List Char), s.is_saving = true →
      sentinelTransition s.prev_line (pySplit (pyStrip line)) = true →
      (segStep s line).all_results = s.all_results ++ [s.result] ∧
        (segStep s line).result = []) :=
  ⟨find_segments_headOpens, segStep_open, segStep_close⟩

theorem spec_C9_witness :
    headOpens ["a b c d e f 00000456".toList] ∧
    (segStep ⟨[], [], [], false, some "a b c d e f 00000123".toList⟩
        "a b c d e f 00000456".toList).result =
      [pyStrip "a b c d e f 00000456".toList] ∧
    (segStep ⟨[["q".toList]], ["p".toList], [], true, some "a b c d e f 00000123".toList⟩
        "a b c d e f 00000456".toList).all_results = [["q".toList]] ++ [["p".toList]] :=
  ⟨spec_C9.1 ["a b c d e f 00000123".toList, "a b c d e f 00000456".toList]
      ["a b c d e f 00000456".toList] (by decide),
   (spec_C9.2.1 ⟨[], [], [], false, some "a b c d e f 00000123".toList⟩
      "a b c d e f 00000456".toList rfl rfl (by decide)).1,
   (spec_C9.2.2 ⟨[["q".toList]], ["p".toList], [], true, some "a b c d e f 00000123".toList⟩
      "a b c d e f 00000456".toList rfl (by decide)).1⟩

/-- C7: the per-index magnitude and phase errors used by
`analyze_fft_accuracy` are symmetric in the two arrays (elementwise and as
whole error series), both are non-negative, and the wrapped phase error lies
in `[0, 180]` degrees. -/
theorem spec_C7 (z w : ℂ) (a b : List ℂ) :
    magErrC z w = magErrC w z ∧ phaseErrDeg z w = phaseErrDeg w z ∧
    0 ≤ magErrC z w ∧ 0 ≤ phaseErrDeg z w ∧ phaseErrDeg z w ≤ 180 ∧
    magErrList a b = magErrList b a ∧ phaseErrList a b = phaseErrList b a :=
  ⟨magErrC_comm z w, phaseErrDeg_comm z w, magErrC_nonneg z w,
   (phaseErrDeg_bounds z w).1, (phaseErrDeg_bounds z w).2,
   magErrList_comm a b, phaseErrList_comm a b⟩

theorem magErrList_take (a b : List ℂ) :
    magErrList a b = magErrList (a.take b.length) (b.take a.length) := by
  unfold magErrList
  rw [← zip_eq_zip_take]

theorem phaseErrList_take (a b : List ℂ) :
    phaseErrList a b = phaseErrList (a.take b.length) (b.take a.length) := by
  unfold phaseErrList
  rw [← zip_eq_zip_take]

/-- C10: on two empty arrays `analyze_fft_accuracy` raises (`max()` of an
empty list, modelled as `none`) instead of returning statistics; and for
arrays of unequal length it aggregates only over the first
`min(len(candidate), len(reference))` indices — truncating each array to the
other's length does not change the result. -/
theorem spec_C10 :
    analyze_fft_accuracy [] [] = none ∧
    (∀ a b : List ℂ, analyze_fft_accuracy a b =
      analyze_fft_accuracy (a.take b.length) (b.take a.length)) := by
  refine ⟨rfl, fun a b => ?_⟩
  unfold analyze_fft_accuracy
  rw [← magErrList_take, ← phaseErrList_take]

theorem complex_mk_ofReal (x : ℝ) : (⟨x, 0⟩ : ℂ) = (x : ℂ) := by
  apply Complex.ext <;> simp

theorem abs_mk_of_nonneg (x : ℝ) (hx : 0 ≤ x) : Complex.abs ⟨x, 0⟩ = x := by
  rw [complex_mk_ofReal, Complex.abs_ofReal, abs_of_nonneg hx]

theorem arg_mk_of_nonneg (x : ℝ) (hx : 0 ≤ x) : Complex.arg ⟨x, 0⟩ = 0 := by
  rw [complex_mk_ofReal]
  exact Complex.arg_ofReal_of_nonneg hx

theorem magErrC_real (x y : ℝ) (hx : 0 ≤ x) (hy : 0 ≤ y) :
    magErrC ⟨x, 0⟩ ⟨y, 0⟩ = |x - y| := by
  unfold magErrC
  rw [abs_mk_of_nonneg x hx, abs_mk_of_nonneg y hy]

theorem phaseErrDeg_real (x y : ℝ) (hx : 0 ≤ x) (hy : 0 ≤ y) :
    phaseErrDeg ⟨x, 0⟩ ⟨y, 0⟩ = 0 := by
  have h1 : atan2 ((⟨x, 0⟩ : ℂ)).im ((⟨x, 0⟩ : ℂ)).re = 0 := arg_mk_of_nonneg x hx
  have h2 : atan2 ((⟨y, 0⟩ : ℂ)).im ((⟨y, 0⟩ : ℂ)).re = 0 := arg_mk_of_nonneg y hy
  have hnot : ¬(Real.pi < |(0 : ℝ) - 0|) := by
    rw [sub_zero, abs_zero]
    exact not_lt.mpr Real.pi_pos.le
  unfold phaseErrDeg phaseErrRad
  rw [h1, h2]
  simp only [if_neg hnot]
  simp

/-- C3: `analyze_fft_accuracy` passes exactly when the maximum magnitude
error is strictly below `1e-3` and the maximum phase error strictly below
`5.0` degrees; a pair differing only by magnitude error exactly `1e-3` is
reported fail, and one differing by `0.999e-3` with phase error `0` is
reported pass. -/
theorem spec_C3 :
    (∀ a r : List ℂ,
      match analyze_fft_accuracy a r with
      | none => True
      | some rep => rep.pass_verdict ↔
          rep.max_mag_error < 1 / 1000 ∧ rep.max_phase_error < 5) ∧
    (∃ rep, analyze_fft_accuracy [⟨1 + 1 / 1000, 0⟩] [⟨1, 0⟩] = some rep ∧
      ¬rep.pass_verdict) ∧
    (∃ rep, analyze_fft_accuracy [⟨1 + 999 / 1000000, 0⟩] [⟨1, 0⟩] = some rep ∧
      rep.pass_verdict) := by
  refine ⟨?_, ?_, ?_⟩
  · intro a r
    unfold analyze_fft_accuracy analyzeOf
    cases pyMax (magErrList a r) with
    | none => exact trivial
    | some mm =>
      cases pyMax (phaseErrList a r) with
      | none => exact trivial
      | some mp => exact Iff.rfl
  · refine ⟨_, rfl, ?_⟩
    intro hpass
    have h1 : magErrC ⟨1 + 1 / 1000, 0⟩ (⟨1, 0⟩ : ℂ) < 1 / 1000 := hpass.1
    rw [magErrC_real _ _ (by norm_num) (by norm_num),
      show (1 : ℝ) + 1 / 1000 - 1 = 1 / 1000 from by norm_num,
      abs_of_nonneg (by norm_num : (0 : ℝ) ≤ 1 / 1000)] at h1
    exact absurd h1 (lt_irrefl _)
  · refine ⟨_, rfl, ?_⟩
    constructor
    · show magErrC ⟨1 + 999 / 1000000, 0⟩ (⟨1, 0⟩ : ℂ) < 1 / 1000
      rw [magErrC_real _ _ (by norm_num) (by norm_num),
        show (1 : ℝ) + 999 / 1000000 - 1 = 999 / 1000000 from by norm_num,
        abs_of_nonneg (by norm_num : (0 : ℝ) ≤ 999 / 1000000)]
      norm_num
    · show phaseErrDeg ⟨1 + 999 / 1000000, 0⟩ (⟨1, 0⟩ : ℂ) < 5
      rw [phaseErrDeg_real _ _ (by norm_num) (by norm_num)]
      norm_num

/-- C2 counterexample: on a missing trace file, `main` prints the
file-not-found message but `except FileNotFoundError` only prints and
returns — the process exits with status `0`, not the claimed non-zero
status. -/
theorem spec_C2_cex :
    (main_body none (fun l => l) true).msgs = [Msg.fileNotFound] ∧
      (main_body none (fun l => l) true).exit_code = 0 :=
  ⟨rfl, rfl⟩

/-- C2 (amended): each fatal condition produces its specific user-visible
message, but only the no-data condition (zero segments or no size-marker
line, including a trace with valid sentinel-delimited segments but no
size-marker line) exits with non-zero status via `sys.exit(1)`; the
file-not-found and insufficient-arrays conditions print their messages and
return normally, so the process exits with status `0`. -/
theorem spec_C2 :
    (∀ refFFT plot_ok, main_body none refFFT plot_ok = ⟨[Msg.fileNotFound], 0⟩) ∧
    (∀ (lines : List (List Char)) refFFT plot_ok,
      ((find_and_save_complex_lines lines).1 = [] ∨
        (find_and_save_complex_lines lines).2 = []) →
      main_body (some lines) refFFT plot_ok = ⟨[Msg.noData], 1⟩) ∧
    (∀ (lines : List (List Char)) refFFT plot_ok (n : Int)
        (arrs : List (List (Float32Val × Float32Val))),
      ¬((find_and_save_complex_lines lines).1 = [] ∨
        (find_and_save_complex_lines lines).2 = []) →
      extractSize (find_and_save_complex_lines lines).2 = some n →
      ((find_and_save_complex_lines lines).1).mapM (fun a => buildArray a n) =
        .ok arrs →
      arrs.length < 2 →
      main_body (some lines) refFFT plot_ok =
        ⟨[Msg.sizeDetected n, Msg.insufficientArrays], 0⟩) := by
  refine ⟨fun _ _ => rfl, ?_, ?_⟩
  · intro lines refFFT plot_ok h
    simp only [main_body]
    rw [if_pos h]
  · intro lines refFFT plot_ok n arrs h hext hmap hlen
    simp only [main_body]
    rw [if_neg h, hext]
    simp only [hmap]
    rw [if_neg (not_le.mpr hlen)]

theorem spec_C2_witness :
    main_body none (fun l => l) true = ⟨[Msg.fileNotFound], 0⟩ ∧
    main_body (some ["a b c d e f 00000123".toList, "a b c d e f 00000456".toList])
        (fun l => l) true = ⟨[Msg.noData], 1⟩ ∧
    main_body (some ["a b c d e f 00000123".toList,
        "c.mv     a1 b c d e 00000456".toList]) (fun l => l) true =
      ⟨[Msg.sizeDetected 1110, Msg.insufficientArrays], 0⟩ :=
  ⟨spec_C2.1 (fun l => l) true,
   spec_C2.2.1 ["a b c d e f 00000123".toList, "a b c d e f 00000456".toList]
     (fun l => l) true (by decide),
   spec_C2.2.2 ["a b c d e f 00000123".toList, "c.mv     a1 b c d e 00000456".toList]
     (fun l => l) true 1110 [[]] (by decide) rfl rfl (by decide)⟩
